import Mathlib

/-!
Shallow embedding of the waveform-synthesis core of xyproto/sinetastic.

The Go program synthesizes sine, square and triangle waveforms as arrays of
signed 16-bit samples and mixes several such arrays with int32 accumulation
and saturation.  Machine integers are modelled as `Int` with explicit
wrapping (`wrap16`, `wrap32`); float64 arithmetic is modelled over `ℝ`,
with the Go float-to-integer conversion modelled as truncation toward zero
followed by a 16-bit wrap (`trunc`, `int16ofFloat`).  Fallible code paths
(index-out-of-range panics, negative `make` lengths) are modelled with
`Option`.
-/

/-- Wrap an integer into the range of a signed 16-bit value, modelling the
Go conversion `int16(x)` from a wider integer. -/
def wrap16 (z : ℤ) : ℤ := (z + 32768) % 65536 - 32768

/-- Wrap an integer into the range of a signed 32-bit value, modelling Go
`int32` two-complement arithmetic. -/
def wrap32 (z : ℤ) : ℤ := (z + 2147483648) % 4294967296 - 2147483648

/-- The saturation step of `CombineWaves`: `if sum > math.MaxInt16 { sum =
math.MaxInt16 } else if sum < math.MinInt16 { sum = math.MinInt16 }`. -/
def clamp16 (z : ℤ) : ℤ := if z > 32767 then 32767 else if z < -32768 then -32768 else z

/-- The inner loop of `CombineWaves` at sample index `i`: starting from the
int32 accumulator `s`, add `int32(wave[i])` for each wave in turn, wrapping
at 32 bits.  Accessing `wave[i]` on a wave shorter than `i+1` panics in Go,
modelled as `none`. -/
def colSumFrom (i : ℕ) (s : ℤ) : List (List ℤ) → Option ℤ
  | [] => some s
  | w :: rest =>
    match w[i]? with
    | none => none
    | some x => colSumFrom i (wrap32 (s + x)) rest

/-- One output sample of `CombineWaves`: the wrapped int32 running sum of
the samples at index `i`, saturated to the int16 range, then converted by
`int16(sum)`. -/
def combineRow (waves : List (List ℤ)) (i : ℕ) : Option ℤ :=
  match colSumFrom i 0 waves with
  | none => none
  | some s => some (wrap16 (clamp16 s))

/-- The outer loop of `CombineWaves` over the sample indices `is`. -/
def rowsFrom (waves : List (List ℤ)) : List ℕ → Option (List ℤ)
  | [] => some []
  | i :: is =>
    match combineRow waves i with
    | none => none
    | some v =>
      match rowsFrom waves is with
      | none => none
      | some vs => some (v :: vs)

/-- Model of Go `CombineWaves(waves ...[]int16) []int16`: an empty argument
list yields the empty signal; otherwise the output has the length of the
first signal and each sample is the saturated int32 sum of the samples of
all inputs at that index.  A panic (a later wave shorter than the first) is
modelled as `none`. -/
def CombineWaves : List (List ℤ) → Option (List ℤ)
  | [] => some []
  | w₀ :: rest => rowsFrom (w₀ :: rest) (List.range w₀.length)

/-- The exact (unwrapped, unsaturated) sum of the samples of all waves at
index `i`; used to state what the saturating mixer computes. -/
def colTotal (waves : List (List ℤ)) (i : ℕ) : ℤ :=
  (waves.map (fun w => w.getD i 0)).sum

/-- Truncation toward zero of a real number, modelling the Go conversion
`int(x)` / the integral part taken by `int16(x)` from a float64. -/
noncomputable def trunc (x : ℝ) : ℤ := if 0 ≤ x then ⌊x⌋ else ⌈x⌉

/-- Model of the Go conversion `int16(x)` for a float64 `x`: truncate toward
zero, then keep the low 16 bits as a signed value (wraparound, no
clamping). -/
noncomputable def int16ofFloat (x : ℝ) : ℤ := wrap16 (trunc x)

/-- Model of Go `SineWave`: `amplitude * math.Sin(2.0*math.Pi*frequency*t+phase)`. -/
noncomputable def SineWave (t frequency amplitude phase : ℝ) : ℝ :=
  amplitude * Real.sin (2 * Real.pi * frequency * t + phase)

/-- Model of Go `SquareWave`: `amplitude` when
`math.Sin(2.0*math.Pi*frequency*t+phase) >= 0`, else `-amplitude`. -/
noncomputable def SquareWave (t frequency amplitude phase : ℝ) : ℝ :=
  if 0 ≤ Real.sin (2 * Real.pi * frequency * t + phase) then amplitude else -amplitude

/-- Model of Go `TriangleWave`:
`(2 * amplitude / math.Pi) * math.Asin(math.Sin(2.0*math.Pi*frequency*t+phase))`. -/
noncomputable def TriangleWave (t frequency amplitude phase : ℝ) : ℝ :=
  (2 * amplitude / Real.pi) * Real.arcsin (Real.sin (2 * Real.pi * frequency * t + phase))

/-- Model of Go `GenerateWave(waveFunc, frequency, amplitude, phase,
sampleRate, duration)`: `numSamples := int(duration.Seconds() *
float64(sampleRate))`, then for each `i` the sample is
`int16(waveFunc(float64(i)/float64(sampleRate), ...))`.  The duration is
modelled directly in seconds.  A negative sample count would make Go
`make([]int16, n)` panic, modelled as `none`. -/
noncomputable def GenerateWave (waveFunc : ℝ → ℝ → ℝ → ℝ → ℝ)
    (frequency amplitude phase : ℝ) (sampleRate : ℤ) (durationSec : ℝ) :
    Option (List ℤ) :=
  let numSamples := trunc (durationSec * (sampleRate : ℝ))
  if numSamples < 0 then none
  else some ((List.range numSamples.toNat).map (fun (i : ℕ) =>
    int16ofFloat (waveFunc ((i : ℝ) / (sampleRate : ℝ)) frequency amplitude phase)))

/-- Model of Go `GenerateSineWave(freq, sampleRate, duration)` from
`main.go`: amplitude fixed at `math.MaxInt16`, phase zero; `numSamples :=
int(float64(sampleRate) * duration.Seconds())`. -/
noncomputable def GenerateSineWave (freq : ℝ) (sampleRate : ℤ) (durationSec : ℝ) :
    Option (List ℤ) :=
  let numSamples := trunc ((sampleRate : ℝ) * durationSec)
  if numSamples < 0 then none
  else some ((List.range numSamples.toNat).map (fun (i : ℕ) =>
    int16ofFloat (32767 * Real.sin (2 * Real.pi * freq * ((i : ℝ) / (sampleRate : ℝ))))))

/-! Helper lemmas about wrapping, clamping and the mixer loops. -/

lemma wrap32_eq_self {z : ℤ} (h1 : -2147483648 ≤ z) (h2 : z < 2147483648) :
    wrap32 z = z := by
  unfold wrap32; omega

lemma wrap16_clamp16 (z : ℤ) : wrap16 (clamp16 z) = clamp16 z := by
  unfold wrap16 clamp16; split <;> [skip; split] <;> omega

lemma clamp16_lb (z : ℤ) : -32768 ≤ clamp16 z := by
  unfold clamp16; split <;> [skip; split] <;> omega

lemma clamp16_ub (z : ℤ) : clamp16 z ≤ 32767 := by
  unfold clamp16; split <;> [skip; split] <;> omega

lemma clamp16_of_gt {z : ℤ} (h : 32767 < z) : clamp16 z = 32767 := by
  unfold clamp16; split <;> omega

lemma clamp16_nonneg {z : ℤ} (h : 0 ≤ z) : 0 ≤ clamp16 z := by
  unfold clamp16; split <;> [skip; split] <;> omega

lemma foldl_wrapAdd_eq_sum (col : List ℤ) : ∀ s : ℤ,
    (∀ x ∈ col, -32768 ≤ x ∧ x ≤ 32767) →
    -2147483648 ≤ s - 32768 * col.length →
    s + 32767 * col.length ≤ 2147483647 →
    col.foldl (fun a x => wrap32 (a + x)) s = s + col.sum := by
  induction col with
  | nil => intro s _ _ _; simp
  | cons x xs ih =>
    intro s hmem hlo hhi
    have hx := hmem x (List.mem_cons_self _ _)
    have hlen : (0 : ℤ) ≤ (xs.length : ℤ) := Int.natCast_nonneg _
    have hlencast : ((x :: xs).length : ℤ) = (xs.length : ℤ) + 1 := by
      simp [List.length_cons]
    rw [hlencast] at hlo hhi
    have h1 : wrap32 (s + x) = s + x := wrap32_eq_self (by omega) (by omega)
    rw [List.foldl_cons, h1, ih (s + x) (fun y hy => hmem y (List.mem_cons_of_mem _ hy))
      (by omega) (by omega), List.sum_cons]
    ring

lemma colSumFrom_eq_of_lt (i : ℕ) (waves : List (List ℤ))
    (h : ∀ w ∈ waves, i < w.length) : ∀ s : ℤ,
    colSumFrom i s waves =
      some (waves.foldl (fun a w => wrap32 (a + w.getD i 0)) s) := by
  induction waves with
  | nil => intro s; simp [colSumFrom]
  | cons w ws ih =>
    intro s
    have hw : i < w.length := h w (List.mem_cons_self _ _)
    have hget : w[i]? = some (w.getD i 0) := by
      rw [List.getElem?_eq_getElem hw, List.getD_eq_getElem _ _ hw]
    rw [colSumFrom, hget]
    exact ih (fun y hy => h y (List.mem_cons_of_mem _ hy)) _

lemma combineRow_eq_of_lt (i : ℕ) (waves : List (List ℤ))
    (h : ∀ w ∈ waves, i < w.length) :
    combineRow waves i =
      some (wrap16 (clamp16 (waves.foldl (fun a w => wrap32 (a + w.getD i 0)) 0))) := by
  rw [combineRow, colSumFrom_eq_of_lt i waves h 0]

lemma colSumFrom_none_of_short (i : ℕ) (waves : List (List ℤ))
    (h : ∃ w ∈ waves, w.length ≤ i) : ∀ s : ℤ, colSumFrom i s waves = none := by
  induction waves with
  | nil => rcases h with ⟨w, hw, _⟩; exact absurd hw (List.not_mem_nil w)
  | cons w ws ih =>
    intro s
    rcases h with ⟨v, hv, hvlen⟩
    rcases List.mem_cons.mp hv with rfl | hv
    · rw [colSumFrom, List.getElem?_eq_none hvlen]
    · rw [colSumFrom]
      cases hget : w[i]? with
      | none => rfl
      | some x => exact ih ⟨v, hv, hvlen⟩ _

lemma rowsFrom_eq_map (waves : List (List ℤ)) (g : ℕ → ℤ) :
    ∀ is : List ℕ, (∀ i ∈ is, combineRow waves i = some (g i)) →
    rowsFrom waves is = some (is.map g) := by
  intro is
  induction is with
  | nil => intro _; simp [rowsFrom]
  | cons i is ih =>
    intro h
    rw [rowsFrom, h i (List.mem_cons_self _ _),
      ih (fun j hj => h j (List.mem_cons_of_mem _ hj)), List.map_cons]

lemma rowsFrom_none_of_mem (waves : List (List ℤ)) :
    ∀ is : List ℕ, ∀ i ∈ is, combineRow waves i = none →
    rowsFrom waves is = none := by
  intro is
  induction is with
  | nil => intro i hi; exact absurd hi (List.not_mem_nil i)
  | cons j is ih =>
    intro i hi hnone
    rcases List.mem_cons.mp hi with rfl | hi
    · rw [rowsFrom, hnone]
    · rw [rowsFrom]
      cases hrow : combineRow waves j with
      | none => rfl
      | some v => rw [ih i hi hnone]

lemma headI_map_range {α : Type} [Inhabited α] (f : ℕ → α) {n : ℕ} (h : 0 < n) :
    ((List.range n).map f).headI = f 0 := by
  cases n with
  | zero => omega
  | succ m => rw [List.range_succ_eq_map, List.map_cons, List.headI_cons]

lemma CombineWaves_cons_eq (w₀ : List ℤ) (rest : List (List ℤ))
    (h : ∀ w ∈ w₀ :: rest, w₀.length ≤ w.length) :
    CombineWaves (w₀ :: rest) =
      some ((List.range w₀.length).map (fun i =>
        wrap16 (clamp16 ((w₀ :: rest).foldl (fun a w => wrap32 (a + w.getD i 0)) 0)))) := by
  rw [CombineWaves]
  exact rowsFrom_eq_map _ _ _ (fun i hi =>
    combineRow_eq_of_lt i _ (fun w hw =>
      lt_of_lt_of_le (List.mem_range.mp hi) (h w hw)))

lemma getD_take (w : List ℤ) {n i : ℕ} (hi : i < n) :
    (w.take n).getD i 0 = w.getD i 0 := by
  rw [List.getD_eq_getElem?_getD, List.getD_eq_getElem?_getD,
    List.getElem?_take_of_lt hi]

lemma foldl_wrap_take {n i : ℕ} (hi : i < n) (ws : List (List ℤ)) : ∀ s : ℤ,
    (ws.map (fun w => w.take n)).foldl (fun a w => wrap32 (a + w.getD i 0)) s =
      ws.foldl (fun a w => wrap32 (a + w.getD i 0)) s := by
  induction ws with
  | nil => intro s; rfl
  | cons w rest ih =>
    intro s
    rw [List.map_cons, List.foldl_cons, List.foldl_cons, getD_take w hi]
    exact ih _

lemma foldl_wrap_eq_colTotal (waves : List (List ℤ)) (i : ℕ)
    (hrange : ∀ w ∈ waves, ∀ x ∈ w, -32768 ≤ x ∧ x ≤ 32767)
    (hcount : waves.length ≤ 65536) :
    waves.foldl (fun a w => wrap32 (a + w.getD i 0)) 0 = colTotal waves i := by
  have hmap : waves.foldl (fun a w => wrap32 (a + w.getD i 0)) 0
      = (waves.map (fun w => w.getD i 0)).foldl (fun a x => wrap32 (a + x)) 0 := by
    rw [List.foldl_map]
  have hmem : ∀ x ∈ waves.map (fun w => w.getD i 0), -32768 ≤ x ∧ x ≤ 32767 := by
    intro x hx
    rcases List.mem_map.mp hx with ⟨w, hw, rfl⟩
    by_cases hlt : i < w.length
    · rw [List.getD_eq_getElem _ _ hlt]
      exact hrange w hw _ (List.getElem_mem hlt)
    · rw [List.getD_eq_getElem?_getD, List.getElem?_eq_none (not_lt.mp hlt)]
      norm_num
  have hlen : ((waves.map (fun w => w.getD i 0)).length : ℤ) ≤ 65536 := by
    rw [List.length_map]; exact_mod_cast hcount
  have hlen0 : (0 : ℤ) ≤ ((waves.map (fun w => w.getD i 0)).length : ℤ) :=
    Int.natCast_nonneg _
  rw [hmap, foldl_wrapAdd_eq_sum _ 0 hmem (by omega) (by omega), zero_add, colTotal]

lemma trunc_of_nonneg {x : ℝ} (h : 0 ≤ x) : trunc x = ⌊x⌋ := if_pos h

lemma GenerateWave_eq (waveFunc : ℝ → ℝ → ℝ → ℝ → ℝ)
    (frequency amplitude phase : ℝ) (r : ℤ) (d : ℝ) (hr : 0 < r) (hd : 0 ≤ d) :
    GenerateWave waveFunc frequency amplitude phase r d =
      some ((List.range (⌊d * (r : ℝ)⌋).toNat).map (fun (i : ℕ) =>
        int16ofFloat (waveFunc ((i : ℝ) / (r : ℝ)) frequency amplitude phase))) := by
  have hrR : (0 : ℝ) < (r : ℝ) := by exact_mod_cast hr
  have hx : (0 : ℝ) ≤ d * (r : ℝ) := mul_nonneg hd hrR.le
  have hfloor : ¬ (⌊d * (r : ℝ)⌋ < 0) := not_lt.mpr (Int.floor_nonneg.mpr hx)
  simp only [GenerateWave, trunc_of_nonneg hx, if_neg hfloor]

lemma GenerateSineWave_eq (freq : ℝ) (r : ℤ) (d : ℝ) (hr : 0 < r) (hd : 0 ≤ d) :
    GenerateSineWave freq r d =
      some ((List.range (⌊(r : ℝ) * d⌋).toNat).map (fun (i : ℕ) =>
        int16ofFloat (32767 * Real.sin (2 * Real.pi * freq * ((i : ℝ) / (r : ℝ)))))) := by
  have hrR : (0 : ℝ) < (r : ℝ) := by exact_mod_cast hr
  have hx : (0 : ℝ) ≤ (r : ℝ) * d := mul_nonneg hrR.le hd
  have hfloor : ¬ (⌊(r : ℝ) * d⌋ < 0) := not_lt.mpr (Int.floor_nonneg.mpr hx)
  simp only [GenerateSineWave, trunc_of_nonneg hx, if_neg hfloor]

lemma int16ofFloat_zero : int16ofFloat 0 = 0 := by
  rw [int16ofFloat, trunc_of_nonneg le_rfl, Int.floor_zero]
  decide

/-! Theorems settling the claims. -/

/-- Claim C9: combining an empty sequence of signals returns an empty signal
and is not an error. -/
theorem combine_empty_is_empty_signal : CombineWaves [] = some [] := rfl

/-- Claim C5: for every time, frequency, amplitude and phase, the sine
waveform satisfies the phase-inversion identity
`SineWave t f a p = -SineWave t f a (p + π)` (exactly, over the reals). -/
theorem sine_phase_inversion (t frequency amplitude phase : ℝ) :
    SineWave t frequency amplitude phase =
      -SineWave t frequency amplitude (phase + Real.pi) := by
  unfold SineWave
  rw [show 2 * Real.pi * frequency * t + (phase + Real.pi)
      = 2 * Real.pi * frequency * t + phase + Real.pi by ring, Real.sin_add_pi]
  ring

/-- Claim C4: the square waveform returns exactly the amplitude when
`sin(2π·f·t + p) ≥ 0` and exactly the negated amplitude otherwise; the tie
at exactly zero resolves to the positive amplitude, and the output is never
an intermediate value. -/
theorem square_wave_two_valued (t frequency amplitude phase : ℝ) :
    (0 ≤ Real.sin (2 * Real.pi * frequency * t + phase) →
      SquareWave t frequency amplitude phase = amplitude) ∧
    (Real.sin (2 * Real.pi * frequency * t + phase) < 0 →
      SquareWave t frequency amplitude phase = -amplitude) ∧
    (Real.sin (2 * Real.pi * frequency * t + phase) = 0 →
      SquareWave t frequency amplitude phase = amplitude) ∧
    (SquareWave t frequency amplitude phase = amplitude ∨
      SquareWave t frequency amplitude phase = -amplitude) := by
  unfold SquareWave
  refine ⟨fun h => if_pos h, fun h => if_neg (not_le.mpr h), fun h => if_pos h.ge, ?_⟩
  by_cases h : 0 ≤ Real.sin (2 * Real.pi * frequency * t + phase)
  · exact Or.inl (if_pos h)
  · exact Or.inr (if_neg h)

/-- Witness for C4 at `t = 0, f = 1, a = 5, p = 0`: the argument of `sin` is
zero, so the tie-break gives the positive amplitude. -/
theorem square_wave_two_valued_witness :
    (0 : ℝ) ≤ Real.sin (2 * Real.pi * 1 * 0 + 0) ∧ SquareWave 0 1 5 0 = 5 :=
  ⟨by simp, (square_wave_two_valued 0 1 5 0).1 (by simp)⟩

/-- Claim C6: the triangle waveform computes
`(2·a/π) · asin(sin(2π·f·t + p))`, and its value is `0` wherever
`sin(2π·f·t + p) = 0`. -/
theorem triangle_wave_formula (t frequency amplitude phase : ℝ) :
    TriangleWave t frequency amplitude phase =
      2 * amplitude / Real.pi *
        Real.arcsin (Real.sin (2 * Real.pi * frequency * t + phase)) ∧
    (Real.sin (2 * Real.pi * frequency * t + phase) = 0 →
      TriangleWave t frequency amplitude phase = 0) := by
  refine ⟨rfl, fun h => ?_⟩
  unfold TriangleWave
  rw [h, Real.arcsin_zero, mul_zero]

/-- Witness for C6 at `t = 0, f = 1, a = 5, p = 0`: the sine of the zero
argument vanishes and the triangle wave is `0` there. -/
theorem triangle_wave_formula_witness :
    Real.sin (2 * Real.pi * 1 * 0 + 0) = 0 ∧ TriangleWave 0 1 5 0 = 0 :=
  ⟨by simp, (triangle_wave_formula 0 1 5 0).2 (by simp)⟩

/-- Claim C2: for every waveform function, frequency, amplitude, phase,
sample rate `r > 0` and duration `d ≥ 0`, both `GenerateWave` and
`GenerateSineWave` return a signal of length `⌊r·d⌋`; zero duration yields
an empty signal, not an error. -/
theorem generate_length (waveFunc : ℝ → ℝ → ℝ → ℝ → ℝ)
    (frequency amplitude phase : ℝ) (r : ℤ) (d : ℝ) (hr : 0 < r) (hd : 0 ≤ d) :
    (∃ w, GenerateWave waveFunc frequency amplitude phase r d = some w ∧
      w.length = (⌊(r : ℝ) * d⌋).toNat ∧ (d = 0 → w = [])) ∧
    (∃ w, GenerateSineWave frequency r d = some w ∧
      w.length = (⌊(r : ℝ) * d⌋).toNat ∧ (d = 0 → w = [])) := by
  constructor
  · refine ⟨_, GenerateWave_eq waveFunc frequency amplitude phase r d hr hd, ?_, ?_⟩
    · rw [List.length_map, List.length_range, mul_comm]
    · intro hd0; subst hd0; simp
  · refine ⟨_, GenerateSineWave_eq frequency r d hr hd, ?_, ?_⟩
    · rw [List.length_map, List.length_range]
    · intro hd0; subst hd0; simp

/-- Witness for C2 at `r = 1, d = 0`: both generators yield the empty
signal of length `⌊1·0⌋ = 0`. -/
theorem generate_length_witness :
    (0 : ℤ) < 1 ∧ (0 : ℝ) ≤ 0 ∧
    ((∃ w, GenerateWave (fun _ _ _ _ => 0) 0 0 0 1 0 = some w ∧
      w.length = (⌊((1 : ℤ) : ℝ) * 0⌋).toNat ∧ ((0 : ℝ) = 0 → w = [])) ∧
    (∃ w, GenerateSineWave 0 1 0 = some w ∧
      w.length = (⌊((1 : ℤ) : ℝ) * 0⌋).toNat ∧ ((0 : ℝ) = 0 → w = []))) :=
  ⟨one_pos, le_rfl, generate_length (fun _ _ _ _ => 0) 0 0 0 1 0 one_pos le_rfl⟩

/-- Claim C3: for each index `i`, the generated sample is the waveform
evaluated at `t = i / r`, quantized by truncation toward zero and a direct
16-bit narrowing: `trunc` rounds `3/2` to `1` and `-3/2` to `-1` (toward
zero, not to nearest), and the narrowing wraps out-of-range values
(`int16ofFloat 32768 = -32768`) instead of clamping them. -/
theorem generate_sample_truncates (waveFunc : ℝ → ℝ → ℝ → ℝ → ℝ)
    (frequency amplitude phase : ℝ) (r : ℤ) (d : ℝ) (hr : 0 < r) (hd : 0 ≤ d)
    (w : List ℤ) (hw : GenerateWave waveFunc frequency amplitude phase r d = some w)
    (i : ℕ) (hi : i < w.length) :
    w.get ⟨i, hi⟩ =
      int16ofFloat (waveFunc ((i : ℝ) / (r : ℝ)) frequency amplitude phase) ∧
    trunc (3 / 2) = 1 ∧ trunc (-(3 / 2)) = -1 ∧ int16ofFloat 32768 = -32768 := by
  refine ⟨?_, ?_, ?_, ?_⟩
  · rw [GenerateWave_eq waveFunc frequency amplitude phase r d hr hd] at hw
    obtain rfl := Option.some_injective _ hw
    simp
  · rw [trunc_of_nonneg (by norm_num)]
    norm_num
  · rw [trunc, if_neg (by norm_num), Int.ceil_eq_iff]
    norm_num
  · rw [int16ofFloat, trunc_of_nonneg (by norm_num)]
    norm_num [wrap16]

/-- Witness for C3: generating one sample of the constant-zero waveform at
`r = 1, d = 1` yields the quantized value at `t = 0/1`, and the quoted
truncation and wraparound facts hold. -/
theorem generate_sample_truncates_witness :
    (0 : ℤ) < 1 ∧ (0 : ℝ) ≤ 1 ∧
    (([0] : List ℤ).get ⟨0, by norm_num⟩ =
      int16ofFloat ((fun _ _ _ _ => (0 : ℝ)) (((0 : ℕ) : ℝ) / ((1 : ℤ) : ℝ)) 0 0 0) ∧
     trunc (3 / 2) = 1 ∧ trunc (-(3 / 2)) = -1 ∧ int16ofFloat 32768 = -32768) :=
  ⟨one_pos, zero_le_one,
    generate_sample_truncates (fun _ _ _ _ => 0) 0 0 0 1 1 one_pos zero_le_one [0]
      (by rw [GenerateWave_eq (fun _ _ _ _ => 0) 0 0 0 1 1 one_pos zero_le_one]
          norm_num [List.range_succ, int16ofFloat_zero])
      0 (by norm_num)⟩

lemma get_map_range {α : Type} (f : ℕ → α) {n i : ℕ}
    (hi : i < ((List.range n).map f).length) :
    ((List.range n).map f).get ⟨i, hi⟩ = f i := by
  simp

/-- Claim C1 (amended): for a non-empty sequence of equal-length signals
whose samples lie in the int16 range, with at most 65536 signals (so the
int32 accumulator cannot overflow), `CombineWaves` returns a signal in
which each sample is the exact column sum clamped to `[-32768, 32767]`:
every sample whose exact sum exceeds `32767` is clamped to `32767`, every
output sample lies in the representable range, and a nonnegative exact sum
never yields a negative output (no wraparound). -/
theorem combine_saturates (w₀ : List ℤ) (rest : List (List ℤ))
    (hlen : ∀ w ∈ w₀ :: rest, w.length = w₀.length)
    (hrange : ∀ w ∈ w₀ :: rest, ∀ x ∈ w, -32768 ≤ x ∧ x ≤ 32767)
    (hcount : (w₀ :: rest).length ≤ 65536) :
    ∃ out, CombineWaves (w₀ :: rest) = some out ∧ out.length = w₀.length ∧
      ∀ i, ∀ hi : i < out.length,
        out.get ⟨i, hi⟩ = clamp16 (colTotal (w₀ :: rest) i) ∧
        -32768 ≤ out.get ⟨i, hi⟩ ∧ out.get ⟨i, hi⟩ ≤ 32767 ∧
        (32767 < colTotal (w₀ :: rest) i → out.get ⟨i, hi⟩ = 32767) ∧
        (0 ≤ colTotal (w₀ :: rest) i → 0 ≤ out.get ⟨i, hi⟩) := by
  have hle : ∀ w ∈ w₀ :: rest, w₀.length ≤ w.length :=
    fun w hw => (hlen w hw).ge
  refine ⟨_, CombineWaves_cons_eq w₀ rest hle, by simp, ?_⟩
  intro i hi
  rw [get_map_range, foldl_wrap_eq_colTotal _ i hrange hcount, wrap16_clamp16]
  exact ⟨rfl, clamp16_lb _, clamp16_ub _,
    fun h => clamp16_of_gt h, fun h => clamp16_nonneg h⟩

/-- Witness for C1 (amended): combining `[32767, -5]` with itself saturates
the first sample at `32767` and sums the second to `-10`. -/
theorem combine_saturates_witness :
    (∀ w ∈ [[32767, -5], [32767, -5]], w.length = ([32767, -5] : List ℤ).length) ∧
    (∀ w ∈ [[32767, -5], [32767, -5]], ∀ x ∈ w, (-32768 : ℤ) ≤ x ∧ x ≤ 32767) ∧
    ([[32767, -5], [32767, -5]] : List (List ℤ)).length ≤ 65536 ∧
    CombineWaves [[32767, -5], [32767, -5]] = some [32767, -10] ∧
    (∃ out, CombineWaves ([32767, -5] :: [[32767, -5]]) = some out ∧
      out.length = ([32767, -5] : List ℤ).length ∧
      ∀ i, ∀ hi : i < out.length,
        out.get ⟨i, hi⟩ = clamp16 (colTotal ([32767, -5] :: [[32767, -5]]) i) ∧
        -32768 ≤ out.get ⟨i, hi⟩ ∧ out.get ⟨i, hi⟩ ≤ 32767 ∧
        (32767 < colTotal ([32767, -5] :: [[32767, -5]]) i → out.get ⟨i, hi⟩ = 32767) ∧
        (0 ≤ colTotal ([32767, -5] :: [[32767, -5]]) i → 0 ≤ out.get ⟨i, hi⟩)) :=
  ⟨by decide, by decide, by decide, by decide,
    combine_saturates [32767, -5] [[32767, -5]] (by decide) (by decide) (by decide)⟩

lemma combine_pair_headI (w : List ℤ) (hlen : 0 < w.length) :
    Option.map List.headI (CombineWaves [w, w]) =
      some (wrap16 (clamp16 (wrap32 (wrap32 (0 + w.getD 0 0) + w.getD 0 0)))) := by
  have hle : ∀ v ∈ w :: [w], w.length ≤ v.length := by
    intro v hv
    rcases List.mem_cons.mp hv with rfl | hv
    · exact le_rfl
    · rcases List.mem_cons.mp hv with rfl | hv
      · exact le_rfl
      · exact absurd hv (List.not_mem_nil v)
  rw [show ([w, w] : List (List ℤ)) = w :: [w] from rfl, CombineWaves_cons_eq w [w] hle,
    Option.map_some']
  rw [headI_map_range _ hlen, List.foldl_cons, List.foldl_cons, List.foldl_nil]

/-- Counterexample for C1 as stated: combining the max-amplitude 220 Hz
sine signal (amplitude `32767`, phase `0`, 44100 Hz, 2 s) with itself does
not clamp every sample to the maximum representable value: the sample at
index 0 is `0` (the sine vanishes at `t = 0`), not `32767`. -/
theorem combine_two_max_sines_cex :
    Option.map List.headI ((GenerateWave SineWave 220 32767 0 44100 2).bind
      (fun w => CombineWaves [w, w])) = some 0 ∧
    Option.map List.headI ((GenerateWave SineWave 220 32767 0 44100 2).bind
      (fun w => CombineWaves [w, w])) ≠ some 32767 := by
  have hgen := GenerateWave_eq SineWave 220 32767 0 44100 2 (by norm_num) (by norm_num)
  have hfloor : (⌊(2 : ℝ) * ((44100 : ℤ) : ℝ)⌋ : ℤ) = 88200 := by norm_num
  have hlen : 0 < ((List.range (⌊(2 : ℝ) * ((44100 : ℤ) : ℝ)⌋).toNat).map (fun (i : ℕ) =>
      int16ofFloat (SineWave ((i : ℝ) / ((44100 : ℤ) : ℝ)) 220 32767 0))).length := by
    rw [List.length_map, List.length_range, hfloor]
    norm_num
  have hget0 : ((List.range (⌊(2 : ℝ) * ((44100 : ℤ) : ℝ)⌋).toNat).map (fun (i : ℕ) =>
      int16ofFloat (SineWave ((i : ℝ) / ((44100 : ℤ) : ℝ)) 220 32767 0))).getD 0 0 = 0 := by
    rw [List.getD_eq_getElem _ _ hlen]
    simp [SineWave, int16ofFloat_zero]
  have hmain : Option.map List.headI ((GenerateWave SineWave 220 32767 0 44100 2).bind
      (fun w => CombineWaves [w, w])) = some 0 := by
    rw [hgen, Option.some_bind, combine_pair_headI _ hlen, hget0]
    norm_num [wrap32, clamp16, wrap16]
  exact ⟨hmain, by rw [hmain]; simp⟩

/-- Counterexample for C7 as stated: combining the length-1 signal `[1]`
with the longer signal `[2, 3]` does not fail fast: it succeeds and
silently ignores the trailing sample `3` of the longer input, returning the
same output as combining `[1]` with `[2]`. -/
theorem combine_mismatch_cex :
    CombineWaves [[1], [2, 3]] = some [3] ∧
    CombineWaves [[1], [2]] = some [3] ∧
    CombineWaves [[1], [2, 3]] ≠ none := by
  refine ⟨by decide, by decide, by decide⟩

/-- Claim C7 (amended): combining signals of differing lengths fails fast
(an index-out-of-range panic, modelled as `none`) exactly when some later
signal is shorter than the first; when every later signal is at least as
long as the first, the combination succeeds and silently restricts each
input to the length of the first signal. -/
theorem combine_mismatch (w₀ : List ℤ) (rest : List (List ℤ)) :
    ((∃ w ∈ rest, w.length < w₀.length) → CombineWaves (w₀ :: rest) = none) ∧
    ((∀ w ∈ rest, w₀.length ≤ w.length) →
      ∃ out, CombineWaves (w₀ :: rest) = some out ∧ out.length = w₀.length) := by
  constructor
  · rintro ⟨w, hw, hwlen⟩
    rw [CombineWaves]
    refine rowsFrom_none_of_mem _ _ w.length (List.mem_range.mpr hwlen) ?_
    rw [combineRow, colSumFrom_none_of_short _ _ ⟨w, List.mem_cons_of_mem _ hw, le_rfl⟩]
  · intro h
    have hle : ∀ w ∈ w₀ :: rest, w₀.length ≤ w.length := by
      intro w hw
      rcases List.mem_cons.mp hw with rfl | hw
      · exact le_rfl
      · exact h w hw
    exact ⟨_, CombineWaves_cons_eq w₀ rest hle, by simp⟩

/-- Witness for C7 (amended): a later signal `[3]` shorter than the first
signal `[1, 2]` makes the combination fail, while later signals at least as
long as the first keep it defined. -/
theorem combine_mismatch_witness :
    ([3] : List ℤ) ∈ [[3]] ∧ ([3] : List ℤ).length < ([1, 2] : List ℤ).length ∧
    CombineWaves [[1, 2], [3]] = none ∧
    (∀ w ∈ [[9, 9, 9]], ([1, 2] : List ℤ).length ≤ w.length) ∧
    (∃ out, CombineWaves ([1, 2] :: [[9, 9, 9]]) = some out ∧
      out.length = ([1, 2] : List ℤ).length) :=
  ⟨by decide, by decide,
    (combine_mismatch [1, 2] [[3]]).1 ⟨[3], by decide, by decide⟩,
    by decide,
    (combine_mismatch [1, 2] [[9, 9, 9]]).2 (by decide)⟩

/-- Claim C10: when every later input is at least as long as the first,
`CombineWaves` returns a signal whose length is that of the first input,
and the output depends only on the first `len(first)` samples of each
input: truncating the later inputs to that length gives the same output. -/
theorem combine_uses_first_length (w₀ : List ℤ) (rest : List (List ℤ))
    (h : ∀ w ∈ rest, w₀.length ≤ w.length) :
    ∃ out, CombineWaves (w₀ :: rest) = some out ∧ out.length = w₀.length ∧
      CombineWaves (w₀ :: rest.map (fun w => w.take w₀.length)) = some out := by
  have hle : ∀ w ∈ w₀ :: rest, w₀.length ≤ w.length := by
    intro w hw
    rcases List.mem_cons.mp hw with rfl | hw
    · exact le_rfl
    · exact h w hw
  have hle' : ∀ w ∈ w₀ :: rest.map (fun w => w.take w₀.length),
      w₀.length ≤ w.length := by
    intro w hw
    rcases List.mem_cons.mp hw with rfl | hw
    · exact le_rfl
    · rcases List.mem_map.mp hw with ⟨v, hv, rfl⟩
      rw [List.length_take]
      exact le_min le_rfl (h v hv)
  refine ⟨_, CombineWaves_cons_eq w₀ rest hle, by simp, ?_⟩
  rw [CombineWaves_cons_eq w₀ _ hle']
  refine congrArg some (List.map_eq_map_iff.mpr ?_)
  intro i hi
  have hilt : i < w₀.length := List.mem_range.mp hi
  rw [List.foldl_cons, List.foldl_cons, foldl_wrap_take hilt]

/-- Witness for C10: combining `[1]` with the longer `[10, 20]` yields a
length-1 signal, unchanged when `[10, 20]` is truncated to `[10]`. -/
theorem combine_uses_first_length_witness :
    (∀ w ∈ [[10, 20]], ([1] : List ℤ).length ≤ w.length) ∧
    (∃ out, CombineWaves ([1] :: [[10, 20]]) = some out ∧
      out.length = ([1] : List ℤ).length ∧
      CombineWaves ([1] :: [[10, 20]].map (fun w =>
        w.take ([1] : List ℤ).length)) = some out) ∧
    CombineWaves [[1], [10, 20]] = some [11] :=
  ⟨by decide, combine_uses_first_length [1] [[10, 20]] (by decide), by decide⟩

/-- Claim C8: the call `GenerateWave(SineWave, 220, 0.8*32767, 0, 44100, 2s)`
produces exactly 88200 samples; sample 0 equals 0; the sine waveform value
at the quarter period `t = 1/(4·220)` is exactly `0.8·32767`, whose
quantization is `26213` (within one unit of `0.8·32767 = 26213.6`). -/
theorem concrete_sine_scenario :
    (∃ w, GenerateWave SineWave 220 (0.8 * 32767) 0 44100 2 = some w ∧
      w.length = 88200 ∧ w.headI = 0) ∧
    SineWave (1 / (4 * 220)) 220 (0.8 * 32767) 0 = 0.8 * 32767 ∧
    int16ofFloat (0.8 * 32767) = 26213 := by
  have hgen := GenerateWave_eq SineWave 220 (0.8 * 32767) 0 44100 2
    (by norm_num) (by norm_num)
  have hfloor : (⌊(2 : ℝ) * ((44100 : ℤ) : ℝ)⌋ : ℤ) = 88200 := by norm_num
  have hpos : 0 < (⌊(2 : ℝ) * ((44100 : ℤ) : ℝ)⌋).toNat := by
    rw [hfloor]; norm_num
  refine ⟨⟨_, hgen, ?_, ?_⟩, ?_, ?_⟩
  · rw [List.length_map, List.length_range, hfloor]
    rfl
  · rw [headI_map_range _ hpos]
    simp [SineWave, int16ofFloat_zero]
  · rw [SineWave, show (2 * Real.pi * 220 * (1 / (4 * 220)) + 0 : ℝ) = Real.pi / 2 by
      ring, Real.sin_pi_div_two, mul_one]
  · rw [int16ofFloat, trunc_of_nonneg (by norm_num)]
    rw [show (⌊(0.8 * 32767 : ℝ)⌋ : ℤ) = 26213 by norm_num]
    decide
